import Mathlib

/-!
Verification development for the session-directory synchronization and
presentation model of the cc-copilot-vs-code extension.

The TypeScript sources are shallowly embedded:

* `src/session-manager.ts` (class `SessionManager`): the full-resync
  algorithm `syncWithClaudeDirectory`, the workspace-relevance sort
  `sortProjectsByWorkspaceRelevance`, and `getWorkspaceProjects`.
* `src/session-manager/project-manager.ts` (`ProjectManager.arePathsEqual`).
* `src/session-manager/session-data-manager.ts` (`SessionDataManager.updateSession`,
  `SessionDataManager.deleteSession`).

External runtime facilities (the `JSON.parse` builtin, `Date` parsing, the
`uuid` generator and the wall clock) are modelled as components of an
explicit environment `Env`; JavaScript exceptions are modelled with
`Option` (`none` = the computation threw), and the `try`/`catch` blocks of
the source become `Option` eliminations at exactly the places the source
catches.  Mutable state (`this.data`, the JSON store file on disk, the
uuid supply) is passed explicitly.  JavaScript's stable `Array.prototype.sort`
is modelled by `List.insertionSort`, which is stable and agrees with any
stable sort for the consistent comparators the source uses.
-/

/-- Model of a JavaScript JSON value as returned by `JSON.parse`.
Numbers are restricted to integers (no claim involves fractional JSON
numbers). -/
inductive Json where
  | null : Json
  | bool : Bool → Json
  | num : Int → Json
  | str : String → Json
  | arr : List Json → Json
  | obj : List (String × Json) → Json

/-- Property access `j[k]` on a JavaScript value: `none` models `undefined`
(key missing, or the receiver is a primitive or array without that key).
Call sites where the receiver may be `null`/`undefined` (where JS access
throws) guard explicitly, as the source does. -/
def Json.get (j : Json) (k : String) : Option Json :=
  match j with
  | .obj fields => (fields.find? (fun kv => kv.fst == k)).map (·.snd)
  | _ => none

/-- JavaScript truthiness of a value. -/
def Json.truthy : Json → Bool
  | .null => false
  | .bool b => b
  | .num n => n != 0
  | .str s => s != ""
  | .arr _ => true
  | .obj _ => true

/-- Truthiness of a possibly-`undefined` value (`none` = `undefined`). -/
def truthyOpt : Option Json → Bool
  | none => false
  | some j => j.truthy

/-- JavaScript strict equality on JSON values.  Objects and arrays
compare by reference; every comparison performed by the source is between
values produced by distinct `JSON.parse` calls, whose object/array results
are never reference-identical, so those cases are `false`. -/
def Json.jsEq : Json → Json → Bool
  | .null, .null => true
  | .bool a, .bool b => a == b
  | .num a, .num b => a == b
  | .str a, .str b => a == b
  | _, _ => false

/-- Strict equality where either side may be `undefined` (`none`). -/
def jsEqOpt : Option Json → Option Json → Bool
  | none, none => true
  | some a, some b => a.jsEq b
  | _, _ => false

/-- Test for the JSON `null` value. -/
def Json.isNull : Json → Bool
  | .null => true
  | _ => false

mutual

/-- Model of the JavaScript `String(x)` conversion for JSON values
(objects render as the `[object Object]` tag; arrays render via
`Array.prototype.toString`). -/
def Json.toJsStr : Json → String
  | .null => "null"
  | .bool b => if b then "true" else "false"
  | .num n => toString n
  | .str s => s
  | .obj _ => "[object Object]"
  | .arr xs => Json.arrJoin xs

/-- Model of `Array.prototype.toString` = `join(",")`, rendering `null`
(and `undefined`) elements as empty strings. -/
def Json.arrJoin : List Json → String
  | [] => ""
  | [x] => if x.isNull then "" else x.toJsStr
  | x :: y :: rest =>
    (if x.isNull then "" else x.toJsStr) ++ "," ++ Json.arrJoin (y :: rest)

end

/-- Rendering used by the template literal `Session ${id}` when the
interpolated value may be `undefined`. -/
def jsStrOfOpt : Option Json → String
  | none => "undefined"
  | some j => j.toJsStr

/-- ASCII whitespace as matched by the regex class backslash-s and by
`String.prototype.trim` (the inputs of interest are ASCII). -/
def isJsSpace (c : Char) : Bool :=
  c = ' ' || c = '\t' || c = '\n' || c = '\r' || c = '\x0b' || c = '\x0c'

/-- Model of `String.prototype.trim` on the character list. -/
def trimChars (cs : List Char) : List Char :=
  ((cs.dropWhile isJsSpace).reverse.dropWhile isJsSpace).reverse

/-- Model of `String.prototype.trim`. -/
def jsTrim (s : String) : String := (trimChars s.toList).asString

/-- Model of `String.prototype.startsWith` (character-level prefix test). -/
def jsStartsWith (s pre : String) : Bool := pre.toList.isPrefixOf s.toList

/-- Model of `String.prototype.endsWith` (character-level suffix test). -/
def jsEndsWith (s suf : String) : Bool := suf.toList.isSuffixOf s.toList

/-- Model of `content.replace(/\n|\r/g, ' ')`. -/
def stripNewlines (s : String) : String :=
  (s.toList.map (fun c => if c = '\n' || c = '\r' then ' ' else c)).asString

/-- Model of `content.substring(0, n)` (the inputs of interest are ASCII,
so UTF-16 units and characters coincide). -/
def jsSubstring (n : Nat) (s : String) : String := (s.toList.take n).asString

/-- Split a character list at every occurrence of `sep`, with JavaScript
`String.prototype.split` semantics: the empty input yields one empty
group, separators at the ends yield empty groups. -/
def splitOnChar (sep : Char) : List Char → List (List Char)
  | [] => [[]]
  | c :: rest =>
    let r := splitOnChar sep rest
    if c = sep then [] :: r
    else
      match r with
      | [] => [[c]]
      | g :: gs => (c :: g) :: gs

/-- Model of `content.split('\n')`. -/
def splitLines (s : String) : List String :=
  (splitOnChar '\n' s.toList).map List.asString

/-- Join a list of strings with a separator (used by the models of
`Array.prototype.join` and `path.normalize`). -/
def joinWith (sep : String) : List String → String
  | [] => ""
  | [x] => x
  | x :: y :: xs => x ++ sep ++ joinWith sep (y :: xs)

/-- Matcher for the first regex alternative `cd\s+"[^"]*"` at the head of
the input; returns the characters after the match. -/
def matchCdQuoted (cs : List Char) : Option (List Char) :=
  match cs with
  | c1 :: c2 :: rest =>
    if c1 = 'c' ∧ c2 = 'd' ∧ ¬(rest.takeWhile isJsSpace).isEmpty then
      if ((rest.dropWhile isJsSpace).head? = some '"') then
        if (((rest.dropWhile isJsSpace).drop 1).dropWhile (fun c => c ≠ '"')).head?
            = some '"' then
          some ((((rest.dropWhile isJsSpace).drop 1).dropWhile (fun c => c ≠ '"')).drop 1)
        else none
      else none
    else none
  | _ => none

/-- Matcher for the second regex alternative `cd\s+\S+` at the head of the
input; returns the characters after the match. -/
def matchCdBare (cs : List Char) : Option (List Char) :=
  match cs with
  | c1 :: c2 :: rest =>
    if c1 = 'c' ∧ c2 = 'd' ∧ ¬(rest.takeWhile isJsSpace).isEmpty then
      let ws := rest.dropWhile isJsSpace
      let tok := ws.takeWhile (fun c => ¬ isJsSpace c)
      if tok.isEmpty then none else some (ws.drop tok.length)
    else none
  | _ => none

/-- Combined matcher for `cd\s+"[^"]*"|cd\s+\S+` (first alternative
preferred, as in regex alternation). -/
def matchCdAt (cs : List Char) : Option (List Char) :=
  (matchCdQuoted cs).orElse (fun _ => matchCdBare cs)

theorem length_dropWhile_le' {α : Type _} (p : α → Bool) (l : List α) :
    (l.dropWhile p).length ≤ l.length := by
  induction l with
  | nil => simp
  | cons a l ih =>
    rw [List.dropWhile_cons]
    by_cases h : p a
    · simp only [h, if_true]
      exact ih.trans (by simp)
    · simp [h]

theorem matchCdQuoted_length {cs rest : List Char}
    (h : matchCdQuoted cs = some rest) : rest.length < cs.length := by
  match cs with
  | [] => simp [matchCdQuoted] at h
  | [c] => simp [matchCdQuoted] at h
  | c1 :: c2 :: r =>
    simp only [matchCdQuoted] at h
    split at h
    · split at h
      · split at h
        · rename_i hbody
          have hb := Option.some.inj h
          have h1 : (r.dropWhile isJsSpace).length ≤ r.length := length_dropWhile_le' _ _
          have h2 : (((r.dropWhile isJsSpace).drop 1).dropWhile (fun c => c ≠ '"')).length
              ≤ ((r.dropWhile isJsSpace).drop 1).length := length_dropWhile_le' _ _
          have h3 : 1 ≤ (((r.dropWhile isJsSpace).drop 1).dropWhile (fun c => c ≠ '"')).length := by
            rcases hbl : ((r.dropWhile isJsSpace).drop 1).dropWhile (fun c => c ≠ '"') with
              _ | ⟨x, xs⟩
            · rw [hbl] at hbody; simp at hbody
            · simp
          have h4 : rest.length =
              (((r.dropWhile isJsSpace).drop 1).dropWhile (fun c => c ≠ '"')).length - 1 := by
            rw [← hb, List.length_drop]
          have h5 : ((r.dropWhile isJsSpace).drop 1).length =
              (r.dropWhile isJsSpace).length - 1 := by
            rw [List.length_drop]
          simp only [List.length_cons]
          omega
        · simp at h
      · simp at h
    · simp at h

theorem matchCdBare_length {cs rest : List Char}
    (h : matchCdBare cs = some rest) : rest.length < cs.length := by
  match cs with
  | [] => simp [matchCdBare] at h
  | [c] => simp [matchCdBare] at h
  | c1 :: c2 :: r =>
    simp only [matchCdBare] at h
    split at h
    · split at h
      · simp at h
      · rename_i htok
        have hb := Option.some.inj h
        have h1 : 1 ≤ ((r.dropWhile isJsSpace).takeWhile (fun c => ¬ isJsSpace c)).length := by
          rcases hw : (r.dropWhile isJsSpace).takeWhile (fun c => ¬ isJsSpace c) with
            _ | ⟨x, xs⟩
          · rw [hw] at htok; simp at htok
          · simp
        have h2 : (r.dropWhile isJsSpace).length ≤ r.length := length_dropWhile_le' _ r
        have h3 : rest.length = (r.dropWhile isJsSpace).length -
            ((r.dropWhile isJsSpace).takeWhile (fun c => ¬ isJsSpace c)).length := by
          rw [← hb, List.length_drop]
        simp only [List.length_cons]
        omega
    · simp at h

theorem matchCdAt_length {cs rest : List Char}
    (h : matchCdAt cs = some rest) : rest.length < cs.length := by
  unfold matchCdAt at h
  rcases hq : matchCdQuoted cs with _ | q <;> rw [hq] at h
  · simp only [Option.orElse, Option.none_orElse] at h
    exact matchCdBare_length h
  · simp only [Option.orElse, Option.some_orElse] at h
    exact matchCdQuoted_length (hq.trans (by rw [h]))

/-- Global-replace scan for `content.replace(/cd\s+"[^"]*"|cd\s+\S+/g, '')`:
at each position try to match the alternation; on a match drop the matched
characters and resume after it, otherwise keep the character and advance.
The `fuel` argument makes the recursion structural; every scan step
consumes at least one character (`matchCdAt_length`), so a fuel of
`cs.length` never runs out (`removeCdFuel_congr` below), and the
fuel-exhaustion arm is unreachable from `removeCdScan`. -/
def removeCdFuel : Nat → List Char → List Char
  | _, [] => []
  | 0, cs => cs
  | n + 1, c :: cs' =>
    match matchCdAt (c :: cs') with
    | some rest => removeCdFuel n rest
    | none => c :: removeCdFuel n cs'

/-- The scan result does not depend on the fuel, provided the fuel covers
the input length: the fuel encoding is faithful to the unbounded regex
scan. -/
theorem removeCdFuel_congr : ∀ (k : Nat), ∀ (n m : Nat) (cs : List Char),
    cs.length ≤ k → cs.length ≤ n → cs.length ≤ m →
    removeCdFuel n cs = removeCdFuel m cs := by
  intro k
  induction k with
  | zero =>
    intro n m cs hk _ _
    have : cs = [] := List.length_eq_zero.mp (Nat.le_zero.mp hk)
    subst this
    cases n <;> cases m <;> rfl
  | succ k ih =>
    intro n m cs hk hn hm
    match cs with
    | [] => cases n <;> cases m <;> rfl
    | c :: cs' =>
      simp only [List.length_cons] at hk hn hm
      match n, m with
      | n' + 1, m' + 1 =>
        show (match matchCdAt (c :: cs') with
              | some rest => removeCdFuel n' rest
              | none => c :: removeCdFuel n' cs') =
             (match matchCdAt (c :: cs') with
              | some rest => removeCdFuel m' rest
              | none => c :: removeCdFuel m' cs')
        rcases hma : matchCdAt (c :: cs') with _ | rest
        · simp only
          rw [ih n' m' cs' (by omega) (by omega) (by omega)]
        · simp only
          have hlen := matchCdAt_length hma
          simp only [List.length_cons] at hlen
          exact ih n' m' rest (by omega) (by omega) (by omega)

/-- The regex scan with its canonical fuel. -/
def removeCdScan (cs : List Char) : List Char := removeCdFuel cs.length cs

/-- Model of `content.replace(/cd\s+"[^"]*"|cd\s+\S+/g, '')`. -/
def removeCdCommands (s : String) : String := (removeCdScan s.toList).asString

/-- Model of Node `path.basename` for POSIX paths: strip trailing
separators, then take the final segment (`basename("/") = "/"`,
`basename("") = ""`). -/
def basenamePosix (s : String) : String :=
  let cs := s.toList.reverse.dropWhile (fun c => c = '/')
  if cs.isEmpty then (if s.isEmpty then "" else "/")
  else ((cs.takeWhile (fun c => c ≠ '/')).reverse).asString

/-- Model of the separator normalization `p.replace(/\\/g, '/')` used by
`SessionManager.getWorkspaceProjects` (src/session-manager.ts:133). -/
def normSep (s : String) : String :=
  (s.toList.map (fun c => if c = '\\' then '/' else c)).asString

/-- Segment-stack step of Node `path.posix.normalize`: `..` pops a real
segment, is dropped at the root of an absolute path, and accumulates at
the front of a relative path; other segments push. -/
def normFold (isAbs : Bool) : List String → List String → List String
  | acc, [] => acc
  | acc, seg :: rest =>
    if seg = ".." then
      match acc with
      | [] => normFold isAbs (if isAbs then [] else [".."]) rest
      | top :: acctail =>
        if top = ".." then normFold isAbs (seg :: top :: acctail) rest
        else normFold isAbs acctail rest
    else normFold isAbs (seg :: acc) rest

/-- Model of Node `path.normalize` for POSIX paths (collapse repeated
separators, resolve `.` and `..`, keep a trailing separator as Node
does). -/
def posixNormalize (s : String) : String :=
  if s = "" then "." else
  let isAbs := jsStartsWith s "/"
  let segs := ((splitOnChar '/' s.toList).map List.asString).filter
    (fun x => x != "" && x != ".")
  let core := joinWith "/" ((normFold isAbs [] segs).reverse)
  let base := if isAbs then "/" ++ core else if core = "" then "." else core
  if jsEndsWith s "/" && base != "/" && core != "" then base ++ "/" else base

/-- ASCII model of `String.prototype.toLowerCase` (the paths of interest
are ASCII). -/
def asciiLower (s : String) : String := (s.toList.map Char.toLower).asString

/-- Embedding of `ProjectManager.arePathsEqual`
(src/session-manager/project-manager.ts:39-43): `path.normalize` then
`toLowerCase` on both sides, compared for equality. -/
def arePathsEqual (p1 p2 : String) : Bool :=
  asciiLower (posixNormalize p1) == asciiLower (posixNormalize p2)

/-! ## Data model

The entity records of `src/shared/types.ts`.  `claudeSessionId` holds the
raw value read from the log's first record (`undefined` when absent), as
the source stores it. -/

structure Session where
  id : String
  name : String
  projectId : String
  createdAt : String
  lastActiveAt : String
  claudeSessionId : Option Json
  isTemporary : Bool
  filePath : Option String

structure Project where
  id : String
  name : String
  path : String
  createdAt : String
  sessions : List Session

/-- The persisted aggregate `StoreData` of src/session-manager.ts:11-14. -/
structure Store where
  projects : List Project
  sessions : List Session

/-- External runtime facilities used by the synchronizer, abstracted:
`jsonParse` is the `JSON.parse` builtin (`none` = it threw on that line);
`dateToIso v` is `new Date(v).toISOString()` (`none` = invalid date, the
call threw); `getTime` is `new Date(s).getTime()` for timestamp strings
already stored on entities; `nowIso` is `new Date().toISOString()`;
`uuid` is the `uuidv4()` supply, indexed by how many ids were drawn. -/
structure Env where
  jsonParse : String → Option Json
  dateToIso : Json → Option String
  getTime : String → Int
  nowIso : String
  uuid : Nat → String

/-- One session-log file of the external directory: file name,
`fs.statSync(..).mtime.getTime()`, and raw contents. -/
structure SessionFile where
  name : String
  mtime : Int
  content : String
  deriving DecidableEq

/-- One immediate subdirectory of `~/.claude/projects`. -/
structure ProjectFolder where
  name : String
  files : List SessionFile

/-- The external `~/.claude` tree as the synchronizer observes it. -/
structure ClaudeDir where
  claudeDirExists : Bool
  projectsDirExists : Bool
  projectsPath : String
  folders : List ProjectFolder

/-- The manager's mutable surroundings: `this.data` (memory), the JSON
store document on disk, and the uuid draw count. -/
structure ManagerState where
  memory : Store
  disk : Store
  counter : Nat

/-- Working state during a resync pass. -/
structure SyncState where
  projects : List Project
  sessions : List Session
  counter : Nat

/-! ## Parsing a session file

`fs.readFileSync(..).split('\n').filter(l => l.trim() !== '').map(l => JSON.parse(l))`
(src/session-manager.ts:242-245 and 295-298).  A `JSON.parse` throw
anywhere aborts the whole `.map`, which the per-file `catch` absorbs:
`none` models that. -/

def parseLines (env : Env) (content : String) : Option (List Json) :=
  ((splitLines content).filter (fun l => jsTrim l != "")).mapM env.jsonParse

/-! ## Record searches

`Array.prototype.find` with a property-access callback throws when it
reaches a `null` element (property access on `null`), aborting the file;
the outer value `none` models that throw, `some none` models "not
found". -/

/-- Model of `sessionData.find(entry => entry.cwd)`
(src/session-manager.ts:248). -/
def findTruthyCwd : List Json → Option (Option Json)
  | [] => some none
  | .null :: _ => none
  | r :: rest => if truthyOpt (r.get "cwd") then some (some r) else findTruthyCwd rest

/-- Model of `sessionData.find(msg => msg.type === 'user')`
(src/session-manager.ts:307). -/
def findUserRecord : List Json → Option (Option Json)
  | [] => some none
  | .null :: _ => none
  | r :: rest =>
    if jsEqOpt (r.get "type") (some (.str "user")) then some (some r)
    else findUserRecord rest

/-- Model of `content.find(item => item.type === 'text')`
(src/session-manager.ts:317). -/
def findTextItem : List Json → Option (Option Json)
  | [] => some none
  | .null :: _ => none
  | r :: rest =>
    if jsEqOpt (r.get "type") (some (.str "text")) then some (some r)
    else findTextItem rest

/-- Extraction of the raw content string from `message.content`
(src/session-manager.ts:313-321): a string is used directly; in an array
the first `type === 'text'` element's `.text` is used (`.replace` on a
non-string then throws, hence `none`); otherwise `String(content)`. -/
def contentString : Json → Option String
  | .str s => some s
  | .arr xs =>
    match findTextItem xs with
    | none => none
    | some (some t) =>
      match t.get "text" with
      | some (.str s) => some s
      | _ => none
    | some none => some (Json.arr xs).toJsStr
  | j => some j.toJsStr

/-- Name derivation for a session (src/session-manager.ts:310-329, same
logic as `ClaudeSyncManager.generateSessionName`): from the first
`type === 'user'` record's `message.content`, strip `cd` commands,
replace newlines by spaces, trim, and use the first 50 characters when
longer than 3 characters; otherwise fall back to
`Session <claudeSessionId>`.  `none` models a thrown exception (caught by
the per-file handler). -/
def sessionNameFromData (records : List Json) (cid : Option Json) : Option String :=
  let fallback := "Session " ++ jsStrOfOpt cid
  match findUserRecord records with
  | none => none
  | some none => some fallback
  | some (some m) =>
    let msgOpt := m.get "message"
    if truthyOpt msgOpt then
      let contOpt := (msgOpt.getD .null).get "content"
      if truthyOpt contOpt then
        match contentString (contOpt.getD .null) with
        | none => none
        | some content =>
          let c2 := jsTrim (stripNewlines (jsTrim (removeCdCommands content)))
          if c2.length > 3 then some (jsTrim (jsSubstring 50 c2)) else some fallback
      else some fallback
    else some fallback

/-! ## Full resync (`SessionManager.syncWithClaudeDirectory`,
src/session-manager.ts:189-377) -/

/-- Files considered in a project folder: `.jsonl` files only
(src/session-manager.ts:216). -/
def jsonlFiles (folder : ProjectFolder) : List SessionFile :=
  folder.files.filter (fun f => jsEndsWith f.name ".jsonl")

/-- Descending modification-time order induced by the comparator
`(a, b) => b.stats.mtime.getTime() - a.stats.mtime.getTime()`. -/
def mtimeGE (a b : SessionFile) : Prop := b.mtime - a.mtime ≤ 0

instance : DecidableRel mtimeGE := fun a b => Int.decLe _ _

/-- Model of `files.sort((a, b) => b.mtime - a.mtime)`: V8's sort is
stable, and for this consistent comparator any stable sort produces the
same list as insertion sort. -/
def sortByMtime (fs : List SessionFile) : List SessionFile :=
  fs.insertionSort mtimeGE

/-- The capped per-folder file list: sort by modification time descending,
keep the 20 most recent (src/session-manager.ts:217-225). -/
def cappedFiles (folder : ProjectFolder) : List SessionFile :=
  (sortByMtime (jsonlFiles folder)).take 20

/-- Outcome of the first pass over a folder's files
(src/session-manager.ts:237-259): project info found, or the loop ended
with `projectPath` set to a truthy non-string (so `path.basename` threw
after the assignment, leaving `projectName` undefined and abandoning the
folder), or no file yielded a truthy `cwd`. -/
inductive FolderScan where
  | found (path name : String) (timestamp : Option Json)
  | poisoned
  | notFound

/-- First pass: walk the capped files; skip files whose parse throws or
that contain no truthy `cwd`; at the first truthy `cwd`, succeed when it
is a string, otherwise the folder is abandoned (see `FolderScan`). -/
def scanForProjectInfo (env : Env) : List SessionFile → FolderScan
  | [] => .notFound
  | f :: rest =>
    match parseLines env f.content with
    | none => scanForProjectInfo env rest
    | some records =>
      match findTruthyCwd records with
      | none => scanForProjectInfo env rest
      | some none => scanForProjectInfo env rest
      | some (some entry) =>
        match entry.get "cwd" with
        | some (.str p) => .found p (basenamePosix p) (entry.get "timestamp")
        | _ => .poisoned

/-- Project dedup and creation (src/session-manager.ts:262-284): reuse
the project with strictly-equal `path`, otherwise create one with a fresh
uuid and a `createdAt` from the found entry's timestamp (falling back to
now). -/
def getOrCreateProject (env : Env) (p n : String) (ts : Option Json)
    (st : SyncState) : Project × SyncState :=
  match st.projects.find? (fun pr => pr.path == p) with
  | some pr => (pr, st)
  | none =>
    let createdAt :=
      if truthyOpt ts then (ts.bind env.dateToIso).getD env.nowIso else env.nowIso
    let pr : Project :=
      { id := env.uuid st.counter, name := n, path := p, createdAt := createdAt,
        sessions := [] }
    (pr, { st with projects := st.projects ++ [pr], counter := st.counter + 1 })

/-- Second pass for one file (src/session-manager.ts:290-368): re-parse;
skip on a parse throw or an empty record list; read `sessionId` from the
first record (a throw on `null` skips the file); derive the name (a throw
there also skips the file); create the session unless one with a
strictly-equal `claudeSessionId` is already accumulated. -/
def processSessionFile (env : Env) (proj : Project) (filePath : String)
    (content : String) (st : SyncState) : SyncState :=
  match parseLines env content with
  | none => st
  | some [] => st
  | some (firstEntry :: restRecords) =>
    if firstEntry.isNull then st
    else
      let records := firstEntry :: restRecords
      let cid := firstEntry.get "sessionId"
      match sessionNameFromData records cid with
      | none => st
      | some sessionName =>
        let lastMessage := (records.getLast?).getD .null
        let lastActiveAt :=
          if lastMessage.truthy && truthyOpt (lastMessage.get "timestamp") then
            ((lastMessage.get "timestamp").bind env.dateToIso).getD env.nowIso
          else
            ((firstEntry.get "timestamp").bind env.dateToIso).getD env.nowIso
        match st.sessions.find? (fun s => jsEqOpt s.claudeSessionId cid) with
        | some _ => st
        | none =>
          let createdAt :=
            if truthyOpt (firstEntry.get "timestamp") then
              ((firstEntry.get "timestamp").bind env.dateToIso).getD env.nowIso
            else env.nowIso
          let s : Session :=
            { id := env.uuid st.counter, name := sessionName, projectId := proj.id,
              createdAt := createdAt, lastActiveAt := lastActiveAt,
              claudeSessionId := cid, isTemporary := false,
              filePath := some filePath }
          { st with sessions := st.sessions ++ [s], counter := st.counter + 1 }

/-- Absolute path of a session file, `path.join(projectsDir, folder, file)`. -/
def sessionFilePathOf (projectsDirPath folderName fileName : String) : String :=
  projectsDirPath ++ "/" ++ folderName ++ "/" ++ fileName

/-- One project folder of a resync pass (src/session-manager.ts:213-372):
cap the file list, run the first pass for project info, then the second
pass over the same capped files. -/
def syncFolder (env : Env) (projectsDirPath : String) (folder : ProjectFolder)
    (st : SyncState) : SyncState :=
  let capped := cappedFiles folder
  match scanForProjectInfo env capped with
  | .notFound => st
  | .poisoned => st
  | .found p n ts =>
    let pst := getOrCreateProject env p n ts st
    capped.foldl
      (fun s f =>
        processSessionFile env pst.1
          (sessionFilePathOf projectsDirPath folder.name f.name) f.content s)
      pst.2

/-- Full resync (src/session-manager.ts:189-377): no-op when `~/.claude`
does not exist; otherwise clear both collections, rebuild them from the
folders of `~/.claude/projects` when that directory exists, and save the
result to disk. -/
def syncWithClaudeDirectory (env : Env) (dir : ClaudeDir) (ms : ManagerState) :
    ManagerState :=
  if dir.claudeDirExists then
    let st0 : SyncState := { projects := [], sessions := [], counter := ms.counter }
    let st1 :=
      if dir.projectsDirExists then
        dir.folders.foldl (fun s f => syncFolder env dir.projectsPath f s) st0
      else st0
    let newStore : Store := { projects := st1.projects, sessions := st1.sessions }
    { memory := newStore, disk := newStore, counter := st1.counter }
  else ms

/-! ## Query layer (`SessionManager.getProjects` /
`sortProjectsByWorkspaceRelevance` / `getWorkspaceProjects`,
src/session-manager.ts:79-141) -/

/-- Model of `this.getSessions(projectId)` (src/session-manager.ts:143). -/
def sessionsFor (sessions : List Session) (pid : String) : List Session :=
  sessions.filter (fun s => s.projectId == pid)

/-- Model of `Math.max(...)` over a non-empty list (the source only
applies it to non-empty lists). -/
def listMax : List Int → Int
  | [] => 0
  | x :: xs => xs.foldl max x

/-- Activity key of a project (src/session-manager.ts:104-113): the
maximal `lastActiveAt` over its sessions, or `createdAt` when it has
none. -/
def projectKey (env : Env) (sessions : List Session) (p : Project) : Int :=
  let ps := sessionsFor sessions p.id
  if ps.length > 0 then listMax (ps.map (fun s => env.getTime s.lastActiveAt))
  else env.getTime p.createdAt

/-- Whether a project counts as in-workspace for the relevance sort
(src/session-manager.ts:97-98): its `path` merely starts with one of the
workspace roots. -/
def inWorkspace (wsPaths : List String) (p : Project) : Bool :=
  wsPaths.any (fun w => jsStartsWith p.path w)

/-- The comparator of `sortProjectsByWorkspaceRelevance`
(src/session-manager.ts:95-116). -/
def relevanceCmp (env : Env) (wsPaths : List String) (sessions : List Session)
    (a b : Project) : Int :=
  if inWorkspace wsPaths a && !inWorkspace wsPaths b then -1
  else if !inWorkspace wsPaths a && inWorkspace wsPaths b then 1
  else projectKey env sessions b - projectKey env sessions a

/-- The total preorder induced by the comparator: `a` may precede `b`. -/
def relevanceLE (env : Env) (wsPaths : List String) (sessions : List Session)
    (a b : Project) : Prop :=
  relevanceCmp env wsPaths sessions a b ≤ 0

instance (env : Env) (wsPaths : List String) (sessions : List Session) :
    DecidableRel (relevanceLE env wsPaths sessions) := fun a b => Int.decLe _ _

/-- Embedding of `SessionManager.sortProjectsByWorkspaceRelevance`
(src/session-manager.ts:87-117): identity when there are no workspace
roots, else the stable comparator sort. -/
def sortProjectsByWorkspaceRelevance (env : Env) (wsPaths : List String)
    (sessions : List Session) (projects : List Project) : List Project :=
  if wsPaths.isEmpty then projects
  else projects.insertionSort (relevanceLE env wsPaths sessions)

/-- The membership predicate of `SessionManager.getWorkspaceProjects`
(src/session-manager.ts:130-140): separator-normalized path equals a
root, or extends a root by a separator. -/
def workspaceFilterPred (wsPaths : List String) (p : Project) : Bool :=
  wsPaths.any (fun w =>
    normSep p.path == normSep w ||
    jsStartsWith (normSep p.path) (normSep w ++ "/"))

/-- Embedding of `SessionManager.getWorkspaceProjects`
(src/session-manager.ts:122-141): empty without workspace roots, else the
relevance-sorted projects filtered by `workspaceFilterPred`. -/
def getWorkspaceProjects (env : Env) (wsPaths : List String)
    (sessions : List Session) (projects : List Project) : List Project :=
  if wsPaths.isEmpty then []
  else
    (sortProjectsByWorkspaceRelevance env wsPaths sessions projects).filter
      (workspaceFilterPred wsPaths)

/-! ## Session CRUD (`SessionDataManager`,
src/session-manager/session-data-manager.ts) -/

/-- A `Partial<Session>` update object: `none` = the key is absent from
the update. -/
structure SessionUpdates where
  name : Option String := none
  projectId : Option String := none
  createdAt : Option String := none
  lastActiveAt : Option String := none
  claudeSessionId : Option (Option Json) := none
  isTemporary : Option Bool := none
  filePath : Option (Option String) := none

/-- The object spread `{ ...session, ...updates }`. -/
def applyUpdates (s : Session) (u : SessionUpdates) : Session :=
  { id := s.id
    name := u.name.getD s.name
    projectId := u.projectId.getD s.projectId
    createdAt := u.createdAt.getD s.createdAt
    lastActiveAt := u.lastActiveAt.getD s.lastActiveAt
    claudeSessionId := u.claudeSessionId.getD s.claudeSessionId
    isTemporary := u.isTemporary.getD s.isTemporary
    filePath := u.filePath.getD s.filePath }

/-- Replacement at the first matching index, modelling
`findIndex` followed by an indexed assignment. -/
def replaceFirst (p : Session → Bool) (s' : Session) : List Session → List Session
  | [] => []
  | t :: ts => if p t then s' :: ts else t :: replaceFirst p s' ts

/-- Embedding of `SessionDataManager.updateSession`
(src/session-manager/session-data-manager.ts:70-82): merge the update
into the first session with the given id and save; return `undefined` and
change nothing when the id is absent. -/
def updateSessionData (ms : ManagerState) (sessionId : String)
    (u : SessionUpdates) : Option Session × ManagerState :=
  match ms.memory.sessions.find? (fun s => s.id == sessionId) with
  | none => (none, ms)
  | some s =>
    let s' := applyUpdates s u
    let mem : Store :=
      { ms.memory with
        sessions := replaceFirst (fun t => t.id == sessionId) s' ms.memory.sessions }
    (some s', { ms with memory := mem, disk := mem })

/-- The part of the file system `deleteSession` touches: the set of
existing files, plus an oracle for which `unlinkSync` calls fail (the
failure is caught and logged by the source). -/
structure FsModel where
  files : List String
  unlinkFails : String → Bool

/-- Embedding of `SessionDataManager.deleteSession`
(src/session-manager/session-data-manager.ts:88-114): look up the session
by id; when it has a truthy `filePath` naming an existing file, try to
unlink it (a failure is absorbed); then remove every session with that id
and save. -/
def deleteSessionData (fs : FsModel) (ms : ManagerState) (sessionId : String) :
    FsModel × ManagerState :=
  let fs1 :=
    match ms.memory.sessions.find? (fun s => s.id == sessionId) with
    | some s =>
      match s.filePath with
      | some p =>
        if p != "" && fs.files.contains p && !fs.unlinkFails p then
          { fs with files := fs.files.filter (fun q => q != p) }
        else fs
      | none => fs
    | none => fs
  let mem : Store :=
    { ms.memory with
      sessions := ms.memory.sessions.filter (fun s => s.id != sessionId) }
  (fs1, { ms with memory := mem, disk := mem })

/-! ## Concrete instances used by witnesses and counterexamples -/

/-- A simple environment whose `JSON.parse` always throws; timestamps
parse to their decimal value. -/
def env0 : Env :=
  { jsonParse := fun _ => none
    dateToIso := fun _ => none
    getTime := fun s => Int.ofNat s.length
    nowIso := "NOW"
    uuid := fun n => "u" ++ toString n }

def sessA : Session :=
  { id := "s-1", name := "hello", projectId := "p-1", createdAt := "3",
    lastActiveAt := "4", claudeSessionId := some (.str "c-1"),
    isTemporary := false, filePath := some "/tmp/a.jsonl" }

def projA : Project :=
  { id := "p-1", name := "proj", path := "/w/proj", createdAt := "2",
    sessions := [] }

def msA : ManagerState :=
  { memory := { projects := [projA], sessions := [sessA] }
    disk := { projects := [projA], sessions := [sessA] }
    counter := 7 }

def msEmpty : ManagerState :=
  { memory := { projects := [], sessions := [] }
    disk := { projects := [], sessions := [] }
    counter := 0 }

/-! ## Claim C8 -/

/-- Claim C8 (confirmed): for every prior Store state, a full resync with
a missing external root directory leaves every Project and Session
unchanged in memory and on disk and returns without raising (the
embedding is a total function returning the state unchanged). -/
theorem c8_missing_root_noop (env : Env) (dir : ClaudeDir) (ms : ManagerState)
    (h : dir.claudeDirExists = false) :
    syncWithClaudeDirectory env dir ms = ms := by
  simp [syncWithClaudeDirectory, h]

def dirMissing : ClaudeDir :=
  { claudeDirExists := false, projectsDirExists := false
    projectsPath := "/home/u/.claude/projects", folders := [] }

/-- Witness for C8 at a concrete non-empty store. -/
theorem c8_missing_root_noop_witness :
    syncWithClaudeDirectory env0 dirMissing msA = msA :=
  c8_missing_root_noop env0 dirMissing msA rfl

/-! ## Claim C10 -/

/-- Claim C10 (confirmed): `updateSession` on an id absent from the Store
returns `undefined`, leaves the sessions and projects collections
unchanged and performs no save. -/
theorem c10_update_not_found (ms : ManagerState) (sid : String)
    (u : SessionUpdates) (h : ∀ s ∈ ms.memory.sessions, s.id ≠ sid) :
    updateSessionData ms sid u = (none, ms) := by
  have hf : ms.memory.sessions.find? (fun s => s.id == sid) = none := by
    apply List.find?_eq_none.mpr
    intro s hs
    simp [h s hs]
  simp [updateSessionData, hf]

/-- Witness for C10 at a concrete store and a fresh id. -/
theorem c10_update_not_found_witness :
    updateSessionData msA "s-404" { name := some "renamed" } = (none, msA) :=
  c10_update_not_found msA "s-404" { name := some "renamed" } (by decide)

/-! ## Claim C9 -/

/-- Claim C9 (confirmed): for a stored session whose `filePath` names an
existing file, `deleteSession` removes the session record from the Store
(regardless of the unlink outcome, which is caught and logged, never
raised — the embedding is total), deletes the file when the unlink
succeeds, leaves the file system unchanged when the unlink fails, and
saves the shrunken store to disk. -/
theorem c9_delete_session (fs : FsModel) (ms : ManagerState) (sid : String)
    (s : Session) (p : String)
    (hfind : ms.memory.sessions.find? (fun t => t.id == sid) = some s)
    (hfp : s.filePath = some p) (hp : p ≠ "")
    (hex : fs.files.contains p = true) :
    ((deleteSessionData fs ms sid).2.memory.sessions
        = ms.memory.sessions.filter (fun t => t.id != sid))
    ∧ (∀ t ∈ (deleteSessionData fs ms sid).2.memory.sessions, t.id ≠ sid)
    ∧ (fs.unlinkFails p = false →
        (deleteSessionData fs ms sid).1.files
          = fs.files.filter (fun q => q != p))
    ∧ (fs.unlinkFails p = true → (deleteSessionData fs ms sid).1.files = fs.files)
    ∧ (deleteSessionData fs ms sid).2.disk = (deleteSessionData fs ms sid).2.memory := by
  refine ⟨rfl, ?_, ?_, ?_, rfl⟩
  · intro t ht
    have := List.of_mem_filter ht
    simpa using this
  · intro hu
    have hmem : p ∈ fs.files := by simpa using hex
    simp [deleteSessionData, hfind, hfp, hp, hex, hu, hmem]
  · intro hu
    have hmem : p ∈ fs.files := by simpa using hex
    simp [deleteSessionData, hfind, hfp, hp, hex, hu, hmem]

def fsA : FsModel := { files := ["/tmp/a.jsonl", "/tmp/b.jsonl"], unlinkFails := fun _ => false }

/-- Witness for C9 at a concrete store, session and file system. -/
theorem c9_delete_session_witness :
    ((deleteSessionData fsA msA "s-1").2.memory.sessions
        = msA.memory.sessions.filter (fun t => t.id != "s-1"))
    ∧ (∀ t ∈ (deleteSessionData fsA msA "s-1").2.memory.sessions, t.id ≠ "s-1")
    ∧ (fsA.unlinkFails "/tmp/a.jsonl" = false →
        (deleteSessionData fsA msA "s-1").1.files
          = fsA.files.filter (fun q => q != "/tmp/a.jsonl"))
    ∧ (fsA.unlinkFails "/tmp/a.jsonl" = true →
        (deleteSessionData fsA msA "s-1").1.files = fsA.files)
    ∧ (deleteSessionData fsA msA "s-1").2.disk
        = (deleteSessionData fsA msA "s-1").2.memory :=
  c9_delete_session fsA msA "s-1" sessA "/tmp/a.jsonl" rfl rfl (by decide) (by decide)

/-! ## Claim C6 -/

/-- Claim C6 (corrected — amended form): `getWorkspaceProjects` returns
exactly the Projects whose separator-normalized `path` equals a
separator-normalized workspace root or extends one by a separator (a
strict subdirectory IS returned); the comparison is case-sensitive. -/
theorem c6_workspace_projects_membership (env : Env) (wsPaths : List String)
    (sessions : List Session) (projects : List Project) (p : Project) :
    p ∈ getWorkspaceProjects env wsPaths sessions projects ↔
      p ∈ projects ∧ workspaceFilterPred wsPaths p = true := by
  unfold getWorkspaceProjects
  by_cases hw : wsPaths.isEmpty
  · have hnil : wsPaths = [] := by
      cases wsPaths with
      | nil => rfl
      | cons a l => simp [List.isEmpty] at hw
    subst hnil
    simp [workspaceFilterPred]
  · simp only [hw, if_false, Bool.false_eq_true]
    rw [List.mem_filter]
    unfold sortProjectsByWorkspaceRelevance
    simp [hw]

def projSub : Project :=
  { id := "p-sub", name := "sub", path := "/w/sub", createdAt := "1",
    sessions := [] }

def projUpper : Project :=
  { id := "p-up", name := "W", path := "/W", createdAt := "1",
    sessions := [] }

/-- Counterexample for C6 as stated: a Project whose `path` is a strict
subdirectory of a workspace root IS returned by `getWorkspaceProjects`
even though its path is not equal to the root under the normalized
comparison, and a Project equal to a root up to letter case is NOT
returned even though the normalized comparison equates them. -/
theorem c6_counterexample :
    getWorkspaceProjects env0 ["/w"] [] [projSub] = [projSub]
    ∧ arePathsEqual projSub.path "/w" = false
    ∧ getWorkspaceProjects env0 ["/w"] [] [projUpper] = []
    ∧ arePathsEqual projUpper.path "/w" = true := by
  exact ⟨rfl, by decide, rfl, by decide⟩

/-! ## Claim C2 -/

/-- Claim C2 (corrected — amended form): when the first user-authored
record's content is the string `cd /foo && do the thing please`
followed by a newline, the derived session name is
`&& do the thing please`: the regex strips only the `cd <arg>` command
itself, leaving the `&&` connector; the newline is trimmed away and the
result is trimmed before the 50-character truncation. -/
theorem c2_name_derivation (records : List Json) (cid : Option Json) (m : Json)
    (fields : List (String × Json))
    (hfind : findUserRecord records = some (some m))
    (hmsg : m.get "message" = some (Json.obj fields))
    (hcont : (Json.obj fields).get "content"
        = some (.str "cd /foo && do the thing please\n")) :
    sessionNameFromData records cid = some "&& do the thing please" := by
  have hname : jsTrim (stripNewlines (jsTrim (removeCdCommands
      "cd /foo && do the thing please\n"))) = "&& do the thing please" := by decide
  have hlen : (jsTrim (stripNewlines (jsTrim (removeCdCommands
      "cd /foo && do the thing please\n")))).length > 3 := by decide
  have hcut : jsTrim (jsSubstring 50 (jsTrim (stripNewlines (jsTrim (removeCdCommands
      "cd /foo && do the thing please\n"))))) = "&& do the thing please" := by decide
  unfold sessionNameFromData
  rw [hfind]
  simp [hmsg, hcont, truthyOpt, Json.truthy, contentString, hlen, hcut]

def recC2 : Json :=
  .obj [("sessionId", .str "sid-1"), ("cwd", .str "/foo"),
        ("type", .str "user"),
        ("message", .obj [("content", .str "cd /foo && do the thing please\n")])]

/-- Witness for the amended C2 at a concrete record list. -/
theorem c2_name_derivation_witness :
    sessionNameFromData [recC2] (some (.str "sid-1"))
      = some "&& do the thing please" :=
  c2_name_derivation [recC2] (some (.str "sid-1")) recC2
    [("content", .str "cd /foo && do the thing please\n")] rfl rfl rfl

def envC2 : Env :=
  { env0 with jsonParse := fun l => if l = "L1" then some recC2 else none }

def dirC2 : ClaudeDir :=
  { claudeDirExists := true, projectsDirExists := true
    projectsPath := "/h/.claude/projects"
    folders := [{ name := "fold"
                  files := [{ name := "a.jsonl", mtime := 1, content := "L1" }] }] }

/-- Counterexample for C2 as stated: a full resync over a session log
whose first user record has content `cd /foo && do the thing please`
plus a newline derives the session name `&& do the thing please`, not
`do the thing please` — the `&&` connector survives the cd-stripping
regex. -/
theorem c2_counterexample :
    ((syncWithClaudeDirectory envC2 dirC2 msEmpty).memory.sessions.map
        (fun s => s.name)) = ["&& do the thing please"]
    ∧ ("&& do the thing please" : String) ≠ "do the thing please" := by
  exact ⟨rfl, by decide⟩

/-! ## Claim C1 -/

/-- Claim C1 (corrected — amended form): a session file with one valid
JSON line followed by an unparsable line makes the per-line `JSON.parse`
map throw, so the per-file handler skips the ENTIRE file: no Session (and
no Project) is derived from it, the folder contributes nothing, and the
pass neither aborts nor lets the exception escape — the remaining folders
are processed exactly as if the bad folder were absent. -/
theorem c1_malformed_line_skips_file (env : Env) (pd : String)
    (folder : ProjectFolder) (file : SessionFile) (l1 l2 : String) (r : Json)
    (st : SyncState)
    (hfiles : folder.files = [file])
    (hsplit : splitLines file.content = [l1, l2])
    (ht1 : jsTrim l1 ≠ "") (ht2 : jsTrim l2 ≠ "")
    (hp1 : env.jsonParse l1 = some r) (hp2 : env.jsonParse l2 = none) :
    syncFolder env pd folder st = st
    ∧ ∀ others : List ProjectFolder,
        (folder :: others).foldl (fun s f => syncFolder env pd f s) st
          = others.foldl (fun s f => syncFolder env pd f s) st := by
  have hparse : parseLines env file.content = none := by
    unfold parseLines
    rw [hsplit]
    have hf : ([l1, l2].filter (fun l => jsTrim l != "")) = [l1, l2] := by
      simp [List.filter_cons, ht1, ht2]
    rw [hf]
    simp [List.mapM, List.mapM.loop, hp1, hp2]
  have hcap : cappedFiles folder = [file] ∨ cappedFiles folder = [] := by
    unfold cappedFiles jsonlFiles sortByMtime
    rw [hfiles]
    by_cases he : jsEndsWith file.name ".jsonl"
    · left
      simp [List.filter_cons, he, List.insertionSort, List.orderedInsert]
    · right
      simp [List.filter_cons, he]
  have hscan : scanForProjectInfo env (cappedFiles folder) = .notFound := by
    rcases hcap with hcap | hcap <;> rw [hcap]
    · simp [scanForProjectInfo, hparse]
    · rfl
  have hmain : syncFolder env pd folder st = st := by
    unfold syncFolder
    simp only [hscan]
  refine ⟨hmain, fun others => ?_⟩
  simp only [List.foldl_cons, hmain]

def recGood : Json := .obj [("sessionId", .str "sid-2"), ("cwd", .str "/bar")]

def envC1 : Env :=
  { env0 with jsonParse := fun l =>
      if l = "L1" then some recC2 else if l = "G1" then some recGood else none }

def dirC1 : ClaudeDir :=
  { claudeDirExists := true, projectsDirExists := true
    projectsPath := "/h/.claude/projects"
    folders :=
      [{ name := "bad", files := [{ name := "b.jsonl", mtime := 1, content := "L1\n???" }] },
       { name := "good", files := [{ name := "g.jsonl", mtime := 1, content := "G1" }] }] }

/-- Counterexample for C1 as stated: the bad folder's file has a first
line that parses to a complete session record (`recC2`, with `sessionId`,
`cwd`, and a user message) and a second line on which `JSON.parse`
throws; the resync produces NO session from that file — only the session
of the well-formed second folder survives — where the claim promises a
Session derived from the valid line. -/
theorem c1_counterexample :
    envC1.jsonParse "L1" = some recC2
    ∧ envC1.jsonParse "???" = none
    ∧ splitLines "L1\n???" = ["L1", "???"]
    ∧ ((syncWithClaudeDirectory envC1 dirC1 msEmpty).memory.sessions.map
        (fun s => s.name)) = ["Session sid-2"]
    ∧ ((syncWithClaudeDirectory envC1 dirC1 msEmpty).memory.projects.map
        (fun p => p.path)) = ["/bar"] := by
  exact ⟨rfl, rfl, rfl, rfl, rfl⟩

def folderBadC1 : ProjectFolder :=
  { name := "bad", files := [{ name := "b.jsonl", mtime := 1, content := "L1\n???" }] }

/-- Witness for the amended C1 at the concrete bad folder. -/
theorem c1_malformed_line_skips_file_witness :
    syncFolder envC1 "/h/.claude/projects" folderBadC1
        { projects := [], sessions := [], counter := 0 }
      = { projects := [], sessions := [], counter := 0 }
    ∧ ∀ others : List ProjectFolder,
        (folderBadC1 :: others).foldl
            (fun s f => syncFolder envC1 "/h/.claude/projects" f s)
            { projects := [], sessions := [], counter := 0 }
          = others.foldl (fun s f => syncFolder envC1 "/h/.claude/projects" f s)
              { projects := [], sessions := [], counter := 0 } :=
  c1_malformed_line_skips_file envC1 "/h/.claude/projects" folderBadC1
    { name := "b.jsonl", mtime := 1, content := "L1\n???" } "L1" "???" recC2
    { projects := [], sessions := [], counter := 0 }
    rfl rfl (by decide) (by decide) rfl rfl

/-! ## Claim C7 -/

theorem processSessionFile_projects (env : Env) (proj : Project) (fp content : String)
    (st : SyncState) :
    (processSessionFile env proj fp content st).projects = st.projects := by
  unfold processSessionFile
  try dsimp only
  repeat' split
  all_goals rfl

theorem foldl_processSessionFile_projects (env : Env) (proj : Project)
    (pd fname : String) :
    ∀ (l : List SessionFile) (st : SyncState),
      ((l.foldl (fun s f =>
          processSessionFile env proj (sessionFilePathOf pd fname f.name)
            f.content s) st).projects) = st.projects := by
  intro l
  induction l with
  | nil => intro st; rfl
  | cons f fs ih =>
    intro st
    rw [List.foldl_cons, ih, processSessionFile_projects]

theorem getOrCreateProject_nodup (env : Env) (p n : String) (ts : Option Json)
    (st : SyncState)
    (h : (st.projects.map (fun pr => pr.path)).Nodup) :
    (((getOrCreateProject env p n ts st).2.projects).map (fun pr => pr.path)).Nodup := by
  unfold getOrCreateProject
  rcases hf : st.projects.find? (fun pr => pr.path == p) with _ | pr
  · have hnotin : p ∉ st.projects.map (fun pr => pr.path) := by
      intro hmem
      obtain ⟨q, hq, hqp⟩ := List.mem_map.mp hmem
      have := List.find?_eq_none.mp hf q hq
      simp [hqp] at this
    rw [hf]
    dsimp only
    rw [List.map_append]
    simp [List.nodup_append, h, hnotin]
  · rw [hf]
    dsimp only
    exact h

theorem syncFolder_nodup (env : Env) (pd : String) (folder : ProjectFolder)
    (st : SyncState)
    (h : (st.projects.map (fun pr => pr.path)).Nodup) :
    (((syncFolder env pd folder st).projects).map (fun pr => pr.path)).Nodup := by
  unfold syncFolder
  cases hs : scanForProjectInfo env (cappedFiles folder) with
  | found p n ts =>
    simp only [hs]
    rw [foldl_processSessionFile_projects]
    exact getOrCreateProject_nodup env p n ts st h
  | poisoned => simp only [hs]; exact h
  | notFound => simp only [hs]; exact h

/-- Claim C7 (corrected — amended form): after every synchronization pass
that actually runs (the external root exists), the Store contains at most
one Project per distinct `path` value under strict string equality: the
rebuilt projects list has pairwise-distinct path strings. -/
theorem c7_unique_paths (env : Env) (dir : ClaudeDir) (ms : ManagerState)
    (h : dir.claudeDirExists = true) :
    ((syncWithClaudeDirectory env dir ms).memory.projects.map
        (fun p => p.path)).Nodup := by
  unfold syncWithClaudeDirectory
  rw [h]
  have hfold : ∀ (fs : List ProjectFolder) (st : SyncState),
      (st.projects.map (fun pr => pr.path)).Nodup →
      (((fs.foldl (fun s f => syncFolder env dir.projectsPath f s) st).projects).map
          (fun pr => pr.path)).Nodup := by
    intro fs
    induction fs with
    | nil => intro st hst; exact hst
    | cons f fs ih =>
      intro st hst
      rw [List.foldl_cons]
      exact ih _ (syncFolder_nodup env dir.projectsPath f st hst)
  by_cases hp : dir.projectsDirExists
  · simp only [hp, if_true]
    exact hfold dir.folders _ (by simp)
  · simp [hp]

def recPathA : Json := .obj [("sessionId", .str "sid-A"), ("cwd", .str "/A")]

def recPathLowerA : Json := .obj [("sessionId", .str "sid-a"), ("cwd", .str "/a")]

def envC7 : Env :=
  { env0 with jsonParse := fun l =>
      if l = "A1" then some recPathA
      else if l = "B1" then some recPathLowerA else none }

def dirC7 : ClaudeDir :=
  { claudeDirExists := true, projectsDirExists := true
    projectsPath := "/h/.claude/projects"
    folders :=
      [{ name := "fa", files := [{ name := "a.jsonl", mtime := 1, content := "A1" }] },
       { name := "fb", files := [{ name := "b.jsonl", mtime := 1, content := "B1" }] }] }

/-- Counterexample for C7 as stated: two project folders whose
working-directory fields differ only in letter case yield TWO Projects —
the dedup at session-manager.ts:265 compares paths with `===`, not under
the case/separator-normalized comparison. -/
theorem c7_counterexample :
    ((syncWithClaudeDirectory envC7 dirC7 msEmpty).memory.projects.map
        (fun p => p.path)) = ["/A", "/a"]
    ∧ arePathsEqual "/A" "/a" = true
    ∧ ("/A" : String) ≠ "/a" := by
  exact ⟨rfl, by decide, by decide⟩

/-- Witness for the amended C7 at the concrete two-folder directory. -/
theorem c7_unique_paths_witness :
    ((syncWithClaudeDirectory envC7 dirC7 msEmpty).memory.projects.map
        (fun p => p.path)).Nodup :=
  c7_unique_paths envC7 dirC7 msEmpty rfl

/-! ## Claim C3 -/

def projectPaths (l : List Project) : List String := l.map (fun p => p.path)

def sessionCids (l : List Session) : List (Option Json) :=
  l.map (fun s => s.claudeSessionId)

/-- Equality of the parts of two sync states that the resync algorithm
can observe when branching: the project paths and the session external
ids, in order.  Uuid values and timestamps differ between passes; the
algorithm never branches on them. -/
def SyncShapeEq (s t : SyncState) : Prop :=
  projectPaths s.projects = projectPaths t.projects
  ∧ sessionCids s.sessions = sessionCids t.sessions

theorem find?_isSome_eq_any {α : Type _} (p : α → Bool) (l : List α) :
    (l.find? p).isSome = l.any p := by
  induction l with
  | nil => rfl
  | cons a t ih =>
    rw [List.find?_cons]
    cases hpa : p a
    · simpa [hpa] using ih
    · simp [hpa]

theorem any_map' {α β : Type _} (f : α → β) (p : β → Bool) (l : List α) :
    (l.map f).any p = l.any (fun x => p (f x)) := by
  induction l with
  | nil => rfl
  | cons a t ih => simp [List.any_cons, ih]

/-- The external-id (`claudeSessionId`) that one second-pass file
contributes, as a function of the observable shape only. -/
def cidAddition (env : Env) (content : String) (existing : List (Option Json)) :
    List (Option Json) :=
  match parseLines env content with
  | none => []
  | some [] => []
  | some (fe :: rest) =>
    if fe.isNull then []
    else
      match sessionNameFromData (fe :: rest) (fe.get "sessionId") with
      | none => []
      | some _ =>
        if existing.any (fun c => jsEqOpt c (fe.get "sessionId")) then []
        else [fe.get "sessionId"]

theorem processSessionFile_cids (env : Env) (proj : Project) (fp content : String)
    (st : SyncState) :
    sessionCids (processSessionFile env proj fp content st).sessions
      = sessionCids st.sessions
        ++ cidAddition env content (sessionCids st.sessions) := by
  have hany : ∀ cid, ((sessionCids st.sessions).any (fun c => jsEqOpt c cid))
      = (st.sessions.find? (fun s => jsEqOpt s.claudeSessionId cid)).isSome := by
    intro cid
    rw [find?_isSome_eq_any]
    unfold sessionCids
    rw [any_map']
  unfold processSessionFile cidAddition
  cases hpl : parseLines env content with
  | none => simp
  | some records =>
    cases records with
    | nil => simp
    | cons fe rest =>
      by_cases hn : fe.isNull
      · simp [hn]
      · simp only [hn, Bool.false_eq_true, if_false]
        cases hsn : sessionNameFromData (fe :: rest) (fe.get "sessionId") with
        | none => simp
        | some nm =>
          dsimp only
          rw [hany (fe.get "sessionId")]
          cases hf : st.sessions.find?
              (fun s => jsEqOpt s.claudeSessionId (fe.get "sessionId")) with
          | some v => simp
          | none =>
            simp only [Option.isSome_none, Bool.false_eq_true, if_false]
            simp [sessionCids]

theorem processSessionFile_shape (env : Env) (proj1 proj2 : Project)
    (fp content : String) {s t : SyncState} (h : SyncShapeEq s t) :
    SyncShapeEq (processSessionFile env proj1 fp content s)
      (processSessionFile env proj2 fp content t) := by
  obtain ⟨hp, hc⟩ := h
  constructor
  · unfold projectPaths
    rw [processSessionFile_projects, processSessionFile_projects]
    exact hp
  · rw [processSessionFile_cids, processSessionFile_cids, hc]

theorem getOrCreateProject_effect (env : Env) (p n : String) (ts : Option Json)
    (st : SyncState) :
    projectPaths (getOrCreateProject env p n ts st).2.projects
      = projectPaths st.projects
        ++ (if (projectPaths st.projects).any (fun q => q == p) then [] else [p])
    ∧ sessionCids (getOrCreateProject env p n ts st).2.sessions
      = sessionCids st.sessions := by
  have hany : ((projectPaths st.projects).any (fun q => q == p))
      = (st.projects.find? (fun pr => pr.path == p)).isSome := by
    rw [find?_isSome_eq_any]
    unfold projectPaths
    rw [any_map']
  rw [hany]
  unfold getOrCreateProject
  cases hf : st.projects.find? (fun pr => pr.path == p) with
  | some pr => simp
  | none =>
    constructor
    · dsimp only
      unfold projectPaths
      rw [List.map_append]
      simp
    · rfl

theorem getOrCreateProject_shape (env : Env) (p n : String) (ts : Option Json)
    {s t : SyncState} (h : SyncShapeEq s t) :
    SyncShapeEq (getOrCreateProject env p n ts s).2
      (getOrCreateProject env p n ts t).2 := by
  obtain ⟨hp, hc⟩ := h
  constructor
  · rw [(getOrCreateProject_effect env p n ts s).1,
      (getOrCreateProject_effect env p n ts t).1, hp]
  · rw [(getOrCreateProject_effect env p n ts s).2,
      (getOrCreateProject_effect env p n ts t).2, hc]

theorem foldl_processSessionFile_shape (env : Env) (proj1 proj2 : Project)
    (pd fname : String) :
    ∀ (l : List SessionFile) {s t : SyncState}, SyncShapeEq s t →
      SyncShapeEq
        (l.foldl (fun acc f =>
          processSessionFile env proj1 (sessionFilePathOf pd fname f.name)
            f.content acc) s)
        (l.foldl (fun acc f =>
          processSessionFile env proj2 (sessionFilePathOf pd fname f.name)
            f.content acc) t) := by
  intro l
  induction l with
  | nil => intro s t h; exact h
  | cons f fs ih =>
    intro s t h
    rw [List.foldl_cons, List.foldl_cons]
    exact ih (processSessionFile_shape env proj1 proj2 _ _ h)

theorem syncFolder_shape (env : Env) (pd : String) (folder : ProjectFolder)
    {s t : SyncState} (h : SyncShapeEq s t) :
    SyncShapeEq (syncFolder env pd folder s) (syncFolder env pd folder t) := by
  unfold syncFolder
  cases hs : scanForProjectInfo env (cappedFiles folder) with
  | found p n ts =>
    simp only [hs]
    exact foldl_processSessionFile_shape env _ _ pd folder.name (cappedFiles folder)
      (getOrCreateProject_shape env p n ts h)
  | poisoned => simp only [hs]; exact h
  | notFound => simp only [hs]; exact h

theorem foldl_syncFolder_shape (env : Env) (pd : String) :
    ∀ (fs : List ProjectFolder) {s t : SyncState}, SyncShapeEq s t →
      SyncShapeEq (fs.foldl (fun acc f => syncFolder env pd f acc) s)
        (fs.foldl (fun acc f => syncFolder env pd f acc) t) := by
  intro fs
  induction fs with
  | nil => intro s t h; exact h
  | cons f rest ih =>
    intro s t h
    rw [List.foldl_cons, List.foldl_cons]
    exact ih (syncFolder_shape env pd f h)

/-- Claim C3 (confirmed): with no change to the external directory
between the two passes, running a full resync twice yields the same
number of Projects and the same number of Sessions after each pass — the
clear-and-rebuild pass depends on the prior Store only through the uuid
supply, which the counting cannot observe. -/
theorem c3_resync_idempotent_counts (env : Env) (dir : ClaudeDir)
    (ms : ManagerState) :
    (syncWithClaudeDirectory env dir
        (syncWithClaudeDirectory env dir ms)).memory.projects.length
      = (syncWithClaudeDirectory env dir ms).memory.projects.length
    ∧ (syncWithClaudeDirectory env dir
        (syncWithClaudeDirectory env dir ms)).memory.sessions.length
      = (syncWithClaudeDirectory env dir ms).memory.sessions.length := by
  by_cases h : dir.claudeDirExists
  · unfold syncWithClaudeDirectory
    simp only [h, if_true]
    by_cases hp : dir.projectsDirExists
    · simp only [hp, if_true]
      have hsh := foldl_syncFolder_shape env dir.projectsPath dir.folders
        (s := { projects := [], sessions := [],
                counter := (dir.folders.foldl
                  (fun acc f => syncFolder env dir.projectsPath f acc)
                  { projects := [], sessions := [], counter := ms.counter }).counter })
        (t := { projects := [], sessions := [], counter := ms.counter })
        ⟨rfl, rfl⟩
      constructor
      · have hlen := congrArg List.length hsh.1
        simpa [projectPaths] using hlen
      · have hlen := congrArg List.length hsh.2
        simpa [sessionCids] using hlen
    · simp [hp]
  · have h0 : dir.claudeDirExists = false := by simpa using h
    simp [syncWithClaudeDirectory, h0]

/-! ## Claim C4 -/

theorem processSessionFile_sessions_le (env : Env) (proj : Project)
    (fp content : String) (st : SyncState) :
    (processSessionFile env proj fp content st).sessions.length
      ≤ st.sessions.length + 1 := by
  have h := processSessionFile_cids env proj fp content st
  have hlen := congrArg List.length h
  simp only [sessionCids, List.length_map, List.length_append] at hlen
  have hadd : ∀ ex, (cidAddition env content ex).length ≤ 1 := by
    intro ex
    unfold cidAddition
    repeat' split
    all_goals simp
  have := hadd (List.map (fun s => s.claudeSessionId) st.sessions)
  omega

theorem foldl_processSessionFile_sessions_le (env : Env) (proj : Project)
    (pd fname : String) :
    ∀ (l : List SessionFile) (st : SyncState),
      ((l.foldl (fun s f =>
          processSessionFile env proj (sessionFilePathOf pd fname f.name)
            f.content s) st).sessions.length)
        ≤ st.sessions.length + l.length := by
  intro l
  induction l with
  | nil => intro st; simp
  | cons f fs ih =>
    intro st
    rw [List.foldl_cons]
    have h1 := ih (processSessionFile env proj
      (sessionFilePathOf pd fname f.name) f.content st)
    have h2 := processSessionFile_sessions_le env proj
      (sessionFilePathOf pd fname f.name) f.content st
    simp only [List.length_cons]
    omega

theorem getOrCreateProject_sessions (env : Env) (p n : String) (ts : Option Json)
    (st : SyncState) :
    (getOrCreateProject env p n ts st).2.sessions = st.sessions := by
  unfold getOrCreateProject
  cases hf : st.projects.find? (fun pr => pr.path == p) with
  | some pr => rfl
  | none => rfl

theorem syncFolder_sessions_le (env : Env) (pd : String) (folder : ProjectFolder)
    (st : SyncState) :
    (syncFolder env pd folder st).sessions.length ≤ st.sessions.length + 20 := by
  unfold syncFolder
  cases hs : scanForProjectInfo env (cappedFiles folder) with
  | found p n ts =>
    simp only [hs]
    have h1 := foldl_processSessionFile_sessions_le env
      (getOrCreateProject env p n ts st).1 pd folder.name (cappedFiles folder)
      (getOrCreateProject env p n ts st).2
    have h2 := getOrCreateProject_sessions env p n ts st
    have h3 : (cappedFiles folder).length ≤ 20 := by
      unfold cappedFiles
      simp [List.length_take]
    rw [h2] at h1
    omega
  | poisoned => simp only [hs]; omega
  | notFound => simp only [hs]; omega

instance : IsTotal SessionFile mtimeGE :=
  ⟨fun a b => by unfold mtimeGE; omega⟩

instance : IsTrans SessionFile mtimeGE :=
  ⟨fun a b c => by unfold mtimeGE; omega⟩

theorem mem_take_of_sorted_strict {α : Type _} (key : α → Int) :
    ∀ (l : List α), l.Pairwise (fun a b => key b < key a) →
      ∀ (n : Nat) (x : α), x ∈ l →
      (x ∈ l.take n ↔ l.countP (fun g => key x < key g) < n) := by
  intro l
  induction l with
  | nil =>
    intro _ n x hx
    simp at hx
  | cons a t ih =>
    intro hpw n x hx
    obtain ⟨ha, ht⟩ := List.pairwise_cons.mp hpw
    rcases List.mem_cons.mp hx with hxa | hxt
    · have hcount : (a :: t).countP (fun g => key x < key g) = 0 := by
        rw [List.countP_eq_zero]
        intro b hb
        rcases List.mem_cons.mp hb with hba | hbt
        · rw [hxa, hba]
          simp
        · have hb2 := ha b hbt
          rw [hxa]
          simp
          omega
      rw [hcount]
      cases n with
      | zero => simp
      | succ m =>
        rw [List.take_succ_cons]
        simp [hxa]
    · have hlt : key x < key a := ha x hxt
      have hcount : (a :: t).countP (fun g => key x < key g)
          = t.countP (fun g => key x < key g) + 1 := by
        rw [List.countP_cons]
        simp [hlt]
      rw [hcount]
      cases n with
      | zero => simp
      | succ m =>
        rw [List.take_succ_cons]
        constructor
        · intro hmem
          rcases List.mem_cons.mp hmem with hxa2 | hxm
          · rw [hxa2] at hlt
            omega
          · have := (ih ht m x hxt).mp hxm
            omega
        · intro hlt2
          have := (ih ht m x hxt).mpr (by omega)
          exact List.mem_cons_of_mem a this

/-- Claim C4 (confirmed): a synchronization pass produces at most 20
Sessions from any single project folder; the capped file list has at most
20 entries and exactly 20 when the folder has at least 20 `.jsonl` files;
and, when the modification times are pairwise distinct, the files chosen
are exactly those with fewer than 20 strictly more recent files — the 20
most recently modified. -/
theorem c4_truncation_cap (env : Env) (pd : String) (folder : ProjectFolder)
    (st : SyncState)
    (hdist : (jsonlFiles folder).Pairwise (fun f g => f.mtime ≠ g.mtime)) :
    (syncFolder env pd folder st).sessions.length ≤ st.sessions.length + 20
    ∧ (cappedFiles folder).length ≤ 20
    ∧ (20 ≤ (jsonlFiles folder).length → (cappedFiles folder).length = 20)
    ∧ ∀ f : SessionFile, f ∈ cappedFiles folder ↔
        (f ∈ jsonlFiles folder
          ∧ (jsonlFiles folder).countP (fun g => f.mtime < g.mtime) < 20) := by
  have hperm : List.Perm (sortByMtime (jsonlFiles folder)) (jsonlFiles folder) :=
    List.perm_insertionSort mtimeGE (jsonlFiles folder)
  have hsorted : (sortByMtime (jsonlFiles folder)).Pairwise mtimeGE :=
    List.sorted_insertionSort mtimeGE (jsonlFiles folder)
  have hdistL : (sortByMtime (jsonlFiles folder)).Pairwise
      (fun f g => f.mtime ≠ g.mtime) :=
    (hperm.pairwise_iff (fun h => h.symm)).mpr hdist
  have hstrict : (sortByMtime (jsonlFiles folder)).Pairwise
      (fun a b => b.mtime < a.mtime) := by
    refine (hsorted.and hdistL).imp ?_
    intro a b hab
    obtain ⟨h1, h2⟩ := hab
    unfold mtimeGE at h1
    omega
  refine ⟨syncFolder_sessions_le env pd folder st, ?_, ?_, ?_⟩
  · unfold cappedFiles
    simp [List.length_take]
  · intro h20
    unfold cappedFiles
    rw [List.length_take]
    have hlen := hperm.length_eq
    omega
  · intro f
    constructor
    · intro hf
      have hfL : f ∈ sortByMtime (jsonlFiles folder) := List.take_subset _ _ hf
      have hfj : f ∈ jsonlFiles folder := hperm.mem_iff.mp hfL
      refine ⟨hfj, ?_⟩
      have hiff := mem_take_of_sorted_strict (fun f => f.mtime)
        (sortByMtime (jsonlFiles folder)) hstrict 20 f hfL
      have hcnt := hiff.mp hf
      rw [hperm.countP_eq] at hcnt
      exact hcnt
    · intro hboth
      obtain ⟨hfj, hcnt⟩ := hboth
      have hfL : f ∈ sortByMtime (jsonlFiles folder) := hperm.mem_iff.mpr hfj
      have hiff := mem_take_of_sorted_strict (fun f => f.mtime)
        (sortByMtime (jsonlFiles folder)) hstrict 20 f hfL
      apply hiff.mpr
      rw [hperm.countP_eq]
      exact hcnt

def files25 : List SessionFile :=
  (List.range 25).map (fun i =>
    { name := "f" ++ toString i ++ ".jsonl", mtime := Int.ofNat i, content := "" })

def folder25 : ProjectFolder := { name := "big", files := files25 }

/-- Witness for C4 at a folder with 25 distinctly-timed session files:
the cap holds, exactly 20 files are kept, the file with modification time
24 (the most recent) is kept, and the file with modification time 4 (the
21st most recent) is dropped. -/
theorem c4_truncation_cap_witness :
    ((syncFolder env0 "/pd" folder25
        { projects := [], sessions := [], counter := 0 }).sessions.length
      ≤ ({ projects := [], sessions := [], counter := 0 } : SyncState).sessions.length + 20)
    ∧ (cappedFiles folder25).length = 20
    ∧ ({ name := "f24.jsonl", mtime := Int.ofNat 24, content := "" } : SessionFile)
        ∈ cappedFiles folder25
    ∧ ¬ (({ name := "f4.jsonl", mtime := Int.ofNat 4, content := "" } : SessionFile)
        ∈ cappedFiles folder25) := by
  have h := c4_truncation_cap env0 "/pd" folder25
    { projects := [], sessions := [], counter := 0 } (by decide)
  refine ⟨h.1, h.2.2.1 (by decide), ?_, ?_⟩
  · exact (h.2.2.2 _).mpr (by decide)
  · intro hmem
    have := (h.2.2.2 _).mp hmem
    exact absurd this (by decide)

/-! ## Claim C5 -/

theorem isPrefixOf_self {α : Type _} [BEq α] [LawfulBEq α] (l : List α) :
    l.isPrefixOf l = true := by
  induction l with
  | nil => rfl
  | cons a t ih => simp [List.isPrefixOf, ih]

theorem jsStartsWith_self (s : String) : jsStartsWith s s = true :=
  isPrefixOf_self s.toList

/-- Claim C5 (corrected — amended form): `listProjects` puts first the
projects whose `path` STARTS WITH a workspace root (not only those equal
to one); within that, order is by activity key descending.  When A's path
equals a root, B's and C's paths do not start with any root, C has no
sessions, B has at least one, and B's activity key (max `lastActiveAt`)
exceeds C's key (its `createdAt`), the result is [A, B, C] for every
input order of the three projects. -/
theorem c5_workspace_relevance_order (env : Env) (wsPaths : List String)
    (sessions : List Session) (A B C : Project) (r : String) (l : List Project)
    (hr : r ∈ wsPaths) (hA : A.path = r)
    (hB : ∀ w ∈ wsPaths, jsStartsWith B.path w = false)
    (hC : ∀ w ∈ wsPaths, jsStartsWith C.path w = false)
    (hCsess : sessionsFor sessions C.id = [])
    (hBsess : sessionsFor sessions B.id ≠ [])
    (hkey : projectKey env sessions C < projectKey env sessions B)
    (hl : l = [A, B, C] ∨ l = [A, C, B] ∨ l = [B, A, C] ∨ l = [B, C, A]
        ∨ l = [C, A, B] ∨ l = [C, B, A]) :
    sortProjectsByWorkspaceRelevance env wsPaths sessions l = [A, B, C] := by
  have hne : wsPaths.isEmpty = false := by
    cases wsPaths with
    | nil => cases hr
    | cons a t => rfl
  have hAin : inWorkspace wsPaths A = true := by
    unfold inWorkspace
    rw [List.any_eq_true]
    exact ⟨r, hr, by rw [hA]; exact jsStartsWith_self r⟩
  have hBin : inWorkspace wsPaths B = false := by
    unfold inWorkspace
    simp only [List.any_eq_false]
    intro w hw
    simp [hB w hw]
  have hCin : inWorkspace wsPaths C = false := by
    unfold inWorkspace
    simp only [List.any_eq_false]
    intro w hw
    simp [hC w hw]
  have hAB : relevanceLE env wsPaths sessions A B := by
    simp [relevanceLE, relevanceCmp, hAin, hBin]
  have hnBA : ¬ relevanceLE env wsPaths sessions B A := by
    simp [relevanceLE, relevanceCmp, hAin, hBin]
  have hAC : relevanceLE env wsPaths sessions A C := by
    simp [relevanceLE, relevanceCmp, hAin, hCin]
  have hnCA : ¬ relevanceLE env wsPaths sessions C A := by
    simp [relevanceLE, relevanceCmp, hAin, hCin]
  have hBC : relevanceLE env wsPaths sessions B C := by
    simp [relevanceLE, relevanceCmp, hBin, hCin]
    omega
  have hnCB : ¬ relevanceLE env wsPaths sessions C B := by
    simp [relevanceLE, relevanceCmp, hBin, hCin]
    omega
  unfold sortProjectsByWorkspaceRelevance
  simp only [hne, Bool.false_eq_true, if_false]
  rcases hl with rfl | rfl | rfl | rfl | rfl | rfl <;>
    simp [List.insertionSort, List.orderedInsert, hAB, hAC, hBC, hnBA, hnCA, hnCB]

def projWsA : Project :=
  { id := "A", name := "A", path := "/w", createdAt := "22", sessions := [] }

def projWsB : Project :=
  { id := "B", name := "B", path := "/w/b", createdAt := "22", sessions := [] }

def projWsC : Project :=
  { id := "C", name := "C", path := "/c", createdAt := "1", sessions := [] }

def sessWs : List Session :=
  [{ id := "sA", name := "x", projectId := "A", createdAt := "22",
     lastActiveAt := "22222", claudeSessionId := none, isTemporary := false,
     filePath := none },
   { id := "sB", name := "y", projectId := "B", createdAt := "22",
     lastActiveAt := "999999999", claudeSessionId := none, isTemporary := false,
     filePath := none }]

/-- Counterexample for C5 as stated: A's path equals the workspace root,
B's path (`/w/b`) is elsewhere (not equal to any root) and B owns the
session with the most recent `lastActiveAt`, C has no sessions — yet
`listProjects` returns [B, A, C], not [A, B, C]: the in-workspace test
uses `startsWith`, so B sorts into the workspace group and its higher
activity key puts it before A.  (`env0.getTime` is string length, so
`"999999999"` is the largest activity value in the store.) -/
theorem c5_counterexample :
    ((sortProjectsByWorkspaceRelevance env0 ["/w"] sessWs
        [projWsA, projWsB, projWsC]).map (fun p => p.id)) = ["B", "A", "C"]
    ∧ projWsB.path ≠ "/w"
    ∧ (∀ s ∈ sessWs, env0.getTime s.lastActiveAt ≤ env0.getTime "999999999")
    ∧ sessionsFor sessWs projWsC.id = []
    ∧ (["B", "A", "C"] : List String) ≠ ["A", "B", "C"] := by
  refine ⟨rfl, by decide, by decide, rfl, by decide⟩

def projWsB2 : Project :=
  { id := "B", name := "B", path := "/b", createdAt := "22", sessions := [] }

/-- Witness for the amended C5 at a concrete store, entered in the order
[C, B, A]. -/
theorem c5_workspace_relevance_order_witness :
    sortProjectsByWorkspaceRelevance env0 ["/w"] sessWs
        [projWsC, projWsB2, projWsA] = [projWsA, projWsB2, projWsC] :=
  c5_workspace_relevance_order env0 ["/w"] sessWs projWsA projWsB2 projWsC "/w"
    [projWsC, projWsB2, projWsA]
    (by decide) rfl (by decide) (by decide) rfl
    (fun h => List.noConfusion h) (by decide)
    (Or.inr (Or.inr (Or.inr (Or.inr (Or.inr rfl)))))
